import Mathlib

set_option maxRecDepth 200000

/-!
# Verification of the mchain consensus core

A shallow embedding of `src/app.rs` of the mchain repository: the block data
model, the canonical JSON hashing input, SHA-256, the proof-of-work mining
loop, block/chain validation, the append path and the fork-choice rule.

Modelling conventions:

* Rust byte slices (`Vec<u8>`, `&[u8]`) become `List Nat` with every entry
  below 256; `u64` becomes `Nat`; `i64` becomes `Int`; Rust `String` becomes
  Lean `String`.
* A Rust `panic!` / `.expect(...)` is modelled by returning `none` from an
  `Option`-valued function, so panicking control flow is visible in types.
* The unbounded mining loop is modelled with explicit fuel; the source loop
  is its limit as fuel grows.
* `chrono::Utc::now().timestamp()` is modelled by passing the current
  timestamp as an explicit argument.
-/

namespace Mchain

/-! ## Small string helpers (Rust standard-library behaviour) -/

/-- Rust `str::starts_with`: character-prefix test. -/
def strStartsWith (s p : String) : Bool :=
  p.data.isPrefixOf s.data

/-- One binary digit as a character: `'1'` for an odd remainder, `'0'`
otherwise. -/
def binDigit (n : Nat) : Char :=
  if n % 2 = 1 then '1' else '0'

/-- Fuel-driven accumulator for the minimal base-2 digit string, mirroring the
shape of Rust's binary formatting of an unsigned integer. -/
def binDigitsAux : Nat → Nat → List Char → List Char
  | 0, _, acc => acc
  | fuel + 1, n, acc =>
    let d := binDigit (n % 2)
    let n' := n / 2
    if n' = 0 then d :: acc else binDigitsAux fuel n' (d :: acc)

/-- Rust `format!("\x7b:b\x7d", n)`: the minimal, unpadded base-2 digit string
of `n`; zero renders as `"0"`. -/
def natToBin (n : Nat) : String :=
  String.mk (binDigitsAux (n + 1) n [])

/-- Fuel-driven accumulator for decimal digit strings. -/
def decDigitsAux : Nat → Nat → List Char → List Char
  | 0, _, acc => acc
  | fuel + 1, n, acc =>
    let d := Char.ofNat (48 + n % 10)
    let n' := n / 10
    if n' = 0 then d :: acc else decDigitsAux fuel n' (d :: acc)

/-- Decimal rendering of an unsigned integer (Rust `u64` `Display`). -/
def natToDec (n : Nat) : String :=
  String.mk (decDigitsAux (n + 1) n [])

/-- Decimal rendering of a signed integer (Rust `i64` `Display`). -/
def intToDec : Int → String
  | Int.ofNat n => natToDec n
  | Int.negSucc n => "-" ++ natToDec (n + 1)

/-- UTF-8 encoding of one character (Rust `str::as_bytes`, per scalar
value). -/
def utf8Char (c : Char) : List Nat :=
  let n := c.toNat
  if n < 0x80 then [n]
  else if n < 0x800 then [0xC0 ||| (n >>> 6), 0x80 ||| (n &&& 0x3F)]
  else if n < 0x10000 then
    [0xE0 ||| (n >>> 12), 0x80 ||| ((n >>> 6) &&& 0x3F), 0x80 ||| (n &&& 0x3F)]
  else
    [0xF0 ||| (n >>> 18), 0x80 ||| ((n >>> 12) &&& 0x3F),
     0x80 ||| ((n >>> 6) &&& 0x3F), 0x80 ||| (n &&& 0x3F)]

/-- UTF-8 bytes of a string (Rust `str::as_bytes`). -/
def utf8Bytes (s : String) : List Nat :=
  (s.data.map utf8Char).flatten

/-! ## Hex encoding and decoding (the `hex` crate) -/

/-- Lowercase hex digit for a value below 16. -/
def hexDigit (n : Nat) : Char :=
  "0123456789abcdef".data.getD n ' '

/-- `hex::encode`: each byte becomes exactly two lowercase hex characters. -/
def hexEncode (bytes : List Nat) : String :=
  String.mk ((bytes.map fun b => [hexDigit (b / 16 % 16), hexDigit (b % 16)]).flatten)

/-- Value of one hex character, or `none` for a non-hexadecimal character. -/
def hexVal (c : Char) : Option Nat :=
  if '0' ≤ c ∧ c ≤ '9' then some (c.toNat - 48)
  else if 'a' ≤ c ∧ c ≤ 'f' then some (c.toNat - 87)
  else if 'A' ≤ c ∧ c ≤ 'F' then some (c.toNat - 55)
  else none

/-- Pairwise hex parsing: fails on a non-hex character or an odd-length
tail. -/
def hexDecodeList : List Char → Option (List Nat)
  | [] => some []
  | [_] => none
  | c₁ :: c₂ :: rest =>
    match hexVal c₁, hexVal c₂, hexDecodeList rest with
    | some h, some l, some bs => some ((16 * h + l) :: bs)
    | _, _, _ => none

/-- `hex::decode`: bytes of a hex string, failing on malformed input. -/
def hexDecode (s : String) : Option (List Nat) :=
  hexDecodeList s.data

/-! ## SHA-256 (the `sha2` crate's `Sha256`)

A byte-level SHA-256 over `List Nat`, written with structural (fuel-style)
recursion only, so that the kernel can evaluate it on concrete inputs.
-/

/-- 32-bit truncation. -/
def w32 (n : Nat) : Nat := n % 4294967296

/-- 32-bit right rotation. -/
def rotr (k x : Nat) : Nat := w32 ((x >>> k) ||| (x <<< (32 - k)))

/-- The SHA-256 round constants (FIPS 180-4 §4.2.2), written in decimal. -/
def shaK : List Nat :=
  [1116352408, 1899447441, 3049323471, 3921009573, 961987163,
   1508970993, 2453635748, 2870763221, 3624381080, 310598401,
   607225278, 1426881987, 1925078388, 2162078206, 2614888103,
   3248222580, 3835390401, 4022224774, 264347078, 604807628,
   770255983, 1249150122, 1555081692, 1996064986, 2554220882,
   2821834349, 2952996808, 3210313671, 3336571891, 3584528711,
   113926993, 338241895, 666307205, 773529912, 1294757372,
   1396182291, 1695183700, 1986661051, 2177026350, 2456956037,
   2730485921, 2820302411, 3259730800, 3345764771, 3516065817,
   3600352804, 4094571909, 275423344, 430227734, 506948616,
   659060556, 883997877, 958139571, 1322822218, 1537002063,
   1747873779, 1955562222, 2024104815, 2227730452, 2361852424,
   2428436474, 2756734187, 3204031479, 3329325298]

/-- The SHA-256 initial hash state (FIPS 180-4 §5.3.3), written in decimal. -/
def shaH0 : List Nat :=
  [1779033703, 3144134277, 1013904242, 2773480762,
   1359893119, 2600822924, 528734635, 1541459225]

/-- Length of the zero padding between the `0x80` marker and the length
field. -/
def shaPadZeros (len : Nat) : Nat :=
  (120 - (len + 1) % 64) % 64

/-- Eight big-endian bytes of the 64-bit message bit length. -/
def shaLenBytes (len : Nat) : List Nat :=
  let bits := 8 * len
  [bits >>> 56 % 256, bits >>> 48 % 256, bits >>> 40 % 256, bits >>> 32 % 256,
   bits >>> 24 % 256, bits >>> 16 % 256, bits >>> 8 % 256, bits % 256]

/-- SHA-256 padding: marker byte, zero fill, then the bit length. -/
def shaPad (msg : List Nat) : List Nat :=
  msg ++ 0x80 :: List.replicate (shaPadZeros msg.length) 0 ++ shaLenBytes msg.length

/-- Split a byte list into 64-byte chunks (fuel-driven). -/
def chunks64 : Nat → List Nat → List (List Nat)
  | 0, _ => []
  | _, [] => []
  | fuel + 1, bs => bs.take 64 :: chunks64 fuel (bs.drop 64)

/-- Combine four big-endian bytes into a 32-bit word. -/
def word32 (b₀ b₁ b₂ b₃ : Nat) : Nat :=
  ((b₀ * 256 + b₁) * 256 + b₂) * 256 + b₃

/-- The sixteen message-schedule words of one 64-byte block. -/
def blockWords : Nat → List Nat → List Nat
  | 0, _ => []
  | fuel + 1, bs =>
    word32 (bs.getD 0 0) (bs.getD 1 0) (bs.getD 2 0) (bs.getD 3 0)
      :: blockWords fuel (bs.drop 4)

/-- Small σ₀ of the message schedule. -/
def sigma0 (x : Nat) : Nat := (rotr 7 x) ^^^ (rotr 18 x) ^^^ (x >>> 3)

/-- Small σ₁ of the message schedule. -/
def sigma1 (x : Nat) : Nat := (rotr 17 x) ^^^ (rotr 19 x) ^^^ (x >>> 10)

/-- Extend the schedule, keeping the words seen so far in reverse order. -/
def extendWords : Nat → List Nat → List Nat
  | 0, rev => rev.reverse
  | fuel + 1, rev =>
    let wNew := w32 (sigma1 (rev.getD 1 0) + rev.getD 6 0 +
      sigma0 (rev.getD 14 0) + rev.getD 15 0)
    extendWords fuel (wNew :: rev)

/-- The full 64-word message schedule of one block. -/
def schedule (block : List Nat) : List Nat :=
  extendWords 48 (blockWords 16 block).reverse

/-- Big Σ₀ of the compression function. -/
def bigSigma0 (x : Nat) : Nat := (rotr 2 x) ^^^ (rotr 13 x) ^^^ (rotr 22 x)

/-- Big Σ₁ of the compression function. -/
def bigSigma1 (x : Nat) : Nat := (rotr 6 x) ^^^ (rotr 11 x) ^^^ (rotr 25 x)

/-- 32-bit bitwise complement. -/
def compl32 (x : Nat) : Nat := x ^^^ 0xffffffff

/-- One compression round: the state is the eight working variables. -/
def shaRound (st : List Nat) (kw : Nat × Nat) : List Nat :=
  let a := st.getD 0 0
  let b := st.getD 1 0
  let c := st.getD 2 0
  let d := st.getD 3 0
  let e := st.getD 4 0
  let f := st.getD 5 0
  let g := st.getD 6 0
  let h := st.getD 7 0
  let ch := (e &&& f) ^^^ (compl32 e &&& g)
  let maj := (a &&& b) ^^^ (a &&& c) ^^^ (b &&& c)
  let t₁ := w32 (h + bigSigma1 e + ch + kw.1 + kw.2)
  let t₂ := w32 (bigSigma0 a + maj)
  [w32 (t₁ + t₂), a, b, c, w32 (d + t₁), e, f, g]

/-- Compress one 64-byte block into the running hash state. -/
def shaCompress (state block : List Nat) : List Nat :=
  let final := (shaK.zip (schedule block)).foldl shaRound state
  (state.zip final).map fun p => w32 (p.1 + p.2)

/-- Four big-endian bytes of a 32-bit word. -/
def wordBytes (wd : Nat) : List Nat :=
  [wd >>> 24 % 256, wd >>> 16 % 256, wd >>> 8 % 256, wd % 256]

/-- SHA-256 digest of a byte sequence: 32 raw bytes. -/
def sha256 (msg : List Nat) : List Nat :=
  let padded := shaPad msg
  let final := (chunks64 (padded.length / 64) padded).foldl shaCompress shaH0
  (final.map wordBytes).flatten

/-! ## The canonical JSON encoding (`serde_json::json!` + `to_string`)

`calculate_hash` in `app.rs` serializes
`json!(\x7b "previous_hash": …, "data": …, "timestamp": …, "nonce": … \x7d)`
to a compact JSON string.  We model the `serde_json` values actually used
(a string, a byte array rendered as a JSON array of numbers, and signed and
unsigned integers) and their compact serialization.
-/

/-- The `serde_json` values used by `calculate_hash`. -/
inductive Jval where
  | jstr : String → Jval
  | jint : Int → Jval
  | jnat : Nat → Jval
  | jbytes : List Nat → Jval

/-- JSON string escaping as `serde_json` performs it: quote, backslash, the
named control escapes and `\u00XX` for other control characters. -/
def jsonEscapeChar (c : Char) : List Char :=
  if c = '"' then ['\\', '"']
  else if c = '\\' then ['\\', '\\']
  else if c.toNat ≥ 0x20 then [c]
  else if c.toNat = 8 then ['\\', 'b']
  else if c.toNat = 9 then ['\\', 't']
  else if c.toNat = 10 then ['\\', 'n']
  else if c.toNat = 12 then ['\\', 'f']
  else if c.toNat = 13 then ['\\', 'r']
  else ['\\', 'u', '0', '0', hexDigit (c.toNat / 16), hexDigit (c.toNat % 16)]

/-- A JSON string literal: quoted and escaped. -/
def jsonQuote (s : String) : String :=
  String.mk ('"' :: (s.data.map jsonEscapeChar).flatten ++ ['"'])

/-- Comma-separated concatenation, as compact JSON uses between items. -/
def commaJoin : List String → String
  | [] => ""
  | [s] => s
  | s :: rest => s ++ "," ++ commaJoin rest

/-- Compact serialization of one `Jval`. -/
def serializeJval : Jval → String
  | .jstr s => jsonQuote s
  | .jint i => intToDec i
  | .jnat n => natToDec n
  | .jbytes bs => "[" ++ commaJoin (bs.map natToDec) ++ "]"

/-- Compact serialization of a JSON object, writing the fields in the order
given. -/
def serializeObj (fields : List (String × Jval)) : String :=
  "\x7b" ++ commaJoin (fields.map fun kv => jsonQuote kv.1 ++ ":" ++ serializeJval kv.2) ++ "\x7d"

/-- Modelled from the spec: the repository's `Cargo.toml` (which fixes the
`serde_json` feature set, and with it whether object keys keep their written
order) is not under `src/`; the spec prescribes the fixed key order
`previous_hash, data, timestamp, nonce`, which is also the order the keys
are written in `calculate_hash` in `app.rs`.  This is the canonical encoding
of a block's hashable fields. -/
def block_json (previous_hash : String) (data : List Nat) (timestamp : Int)
    (nonce : Nat) : String :=
  serializeObj
    [("previous_hash", .jstr previous_hash), ("data", .jbytes data),
     ("timestamp", .jint timestamp), ("nonce", .jnat nonce)]

/-! ## The consensus core (`app.rs`) -/

/-- The source constant `DIFFICULTY_PREFIX`: the required leading characters
of a digest's binary-digit string. -/
def DIFFICULTY_TARGET : String := "00"

/-- A block of the ledger (`struct Block` in `app.rs`). -/
structure Block where
  hash : String
  previous_hash : String
  timestamp : Int
  data : List Nat
  nonce : Nat
deriving DecidableEq

/-- `calculate_hash` in `app.rs`: SHA-256 of the canonical JSON encoding of
the hashable fields. -/
def calculate_hash (timestamp : Int) (previous_hash : String) (data : List Nat)
    (nonce : Nat) : List Nat :=
  sha256 (utf8Bytes (block_json previous_hash data timestamp nonce))

/-- `hash_to_binary_representation` in `app.rs`: concatenate the minimal
binary-digit string of every byte. -/
def hash_to_binary_representation (hash : List Nat) : String :=
  hash.foldl (fun res c => res ++ natToBin c) ""

/-- The mining loop's stopping condition: the digest's binary-digit string
begins with the difficulty characters. -/
def difficultyOk (timestamp : Int) (previous_hash : String) (data : List Nat)
    (nonce : Nat) : Bool :=
  strStartsWith
    (hash_to_binary_representation (calculate_hash timestamp previous_hash data nonce))
    DIFFICULTY_TARGET

/-- The body of the `loop` in `mine_block`, trying nonces upward from
`nonce`; `fuel` bounds the number of iterations modelled. -/
def mineAux (timestamp : Int) (previous_hash : String) (data : List Nat) :
    Nat → Nat → Option (Nat × String)
  | 0, _ => none
  | fuel + 1, nonce =>
    if difficultyOk timestamp previous_hash data nonce then
      some (nonce, hexEncode (calculate_hash timestamp previous_hash data nonce))
    else
      mineAux timestamp previous_hash data fuel (nonce + 1)

/-- `mine_block` in `app.rs`: search nonces from `0` for one whose digest
meets the difficulty, returning the nonce and the hex digest.  The source
loop is unbounded; `fuel` makes the modelled search finite. -/
def mine_block (fuel : Nat) (timestamp : Int) (previous_hash : String)
    (data : List Nat) : Option (Nat × String) :=
  mineAux timestamp previous_hash data fuel 0

/-- `Block::new` in `app.rs`: mine a nonce for the given predecessor hash and
payload at the current time `now`, and assemble the sealed block. -/
def Block.new (fuel : Nat) (now : Int) (previous_hash : String)
    (data : List Nat) : Option Block :=
  (mine_block fuel now previous_hash data).map fun nh =>
    { hash := nh.2, timestamp := now, previous_hash := previous_hash,
      data := data, nonce := nh.1 }

/-- The hard-coded hash of the genesis literal in `App::genesis`. -/
def GENESIS_HASH : String :=
  "0000f816a87f806bb0073dcf026a64fb40c946b5abee2573702828694d5b4c43"

/-- The genesis literal of `App::genesis`, at startup time `now`. -/
def genesis_block (now : Int) : Block :=
  { timestamp := now, previous_hash := "genesis", data := [],
    nonce := 2836, hash := GENESIS_HASH }

/-- `App::genesis` in `app.rs`: push the genesis literal onto the ledger.
The ledger (`App.blocks : Vec<Block>`) is modelled as a `List Block`. -/
def genesis (now : Int) (blocks : List Block) : List Block :=
  blocks ++ [genesis_block now]

/-- `App::is_block_valid` in `app.rs`.  The `.expect("can decode from hex")`
on `hex::decode` panics on a malformed hex hash; that panic is the `none`
result. -/
def is_block_valid (block previous_block : Block) : Option Bool :=
  if block.previous_hash ≠ previous_block.hash then some false
  else
    match hexDecode block.hash with
    | none => none
    | some decoded =>
      if ¬ strStartsWith (hash_to_binary_representation decoded) DIFFICULTY_TARGET then
        some false
      else if hexEncode (calculate_hash block.timestamp block.previous_hash
          block.data block.nonce) ≠ block.hash then
        some false
      else some true

/-- The pairwise walk of `App::is_chain_valid`: validate each block against
its predecessor, propagating a panic (`none`) and stopping at the first
invalid pair. -/
def chainValidFrom : Block → List Block → Option Bool
  | _, [] => some true
  | prev, b :: rest =>
    match is_block_valid b prev with
    | none => none
    | some false => some false
    | some true => chainValidFrom b rest

/-- `App::is_chain_valid` in `app.rs`: a chain of length at most one is
trivially valid; otherwise every consecutive pair must validate. -/
def is_chain_valid : List Block → Option Bool
  | [] => some true
  | b :: rest => chainValidFrom b rest

/-- `App::try_add_block` in `app.rs`: `none` models both the
`.expect("there is at least one block")` panic on an empty ledger and a
panic escaping `is_block_valid`; otherwise the candidate is appended when
valid and dropped when not. -/
def try_add_block (blocks : List Block) (block : Block) : Option (List Block) :=
  match blocks.getLast? with
  | none => none
  | some latest =>
    match is_block_valid block latest with
    | none => none
    | some true => some (blocks ++ [block])
    | some false => some blocks

/-- `App::choose_chain` in `app.rs`: validate both candidates, keep the
longer of two valid chains (ties to `lc`, the local chain), keep the single
valid one, and panic (`none`) when neither is valid.  A panic escaping
`is_chain_valid` also propagates. -/
def choose_chain (lc rc : List Block) : Option (List Block) :=
  match is_chain_valid lc, is_chain_valid rc with
  | some lv, some rv =>
    if lv && rv then
      some (if lc.length ≥ rc.length then lc else rc)
    else if rv && !lv then some rc
    else if !rv && lv then some lc
    else none
  | _, _ => none

/-! ## Concrete sample data used by witnesses and counterexamples -/

/-- A predecessor block whose `hash` field is the one-character string
`"g"`; only its `hash` matters to the samples below. -/
def sampleParent : Block := ⟨"g", "gen", 0, [], 0⟩

/-- The block mined from `sampleParent` at timestamp `118073`: its digest
already meets the difficulty at nonce `0`. -/
def sampleMined : Block :=
  ⟨"0000f064feaa9a2ad4949ae6732c87e0b7697c1836309f9fed5b28905c5aeb5c",
   "g", 118073, [], 0⟩

/-- A block whose `hash` is not valid hex, with `previous_hash` matching
`sampleParent`. -/
def sampleMalformed : Block := ⟨"zz", "g", 0, [], 0⟩

/-- A block that does not link to `sampleParent` (its `previous_hash` is
`"c"`, not `"g"`). -/
def sampleUnlinked : Block := ⟨"b", "c", 0, [], 0⟩

/-! ## Helper lemmas -/

theorem stringDataEq {s t : String} (h : s.data = t.data) : s = t := by
  cases s
  cases t
  exact congrArg String.mk h

theorem binDigitsAux_eq_toDigitsCore :
    ∀ fuel n acc, binDigitsAux fuel n acc = Nat.toDigitsCore 2 fuel n acc := by
  intro fuel
  induction fuel with
  | zero => intro n acc; rfl
  | succ f ih =>
    intro n acc
    have hd : binDigit (n % 2) = Nat.digitChar (n % 2) := by
      rcases Nat.mod_two_eq_zero_or_one n with h | h <;> simp [h, binDigit, Nat.digitChar]
    simp only [binDigitsAux, Nat.toDigitsCore, hd]
    split <;> simp [ih]

theorem natToBin_eq_toDigits (n : Nat) :
    natToBin n = String.mk (Nat.toDigits 2 n) := by
  simp [natToBin, Nat.toDigits, binDigitsAux_eq_toDigitsCore]

theorem hexVal_hexDigit : ∀ n < 16, hexVal (hexDigit n) = some n := by decide

theorem hexDecode_mk (l : List Char) : hexDecode (String.mk l) = hexDecodeList l := rfl

theorem hexEncode_cons (b : Nat) (bs : List Nat) :
    (hexEncode (b :: bs)).data =
      hexDigit (b / 16 % 16) :: hexDigit (b % 16) :: (hexEncode bs).data := by
  simp [hexEncode]

theorem hexDecode_hexEncode (bs : List Nat) (h : ∀ b ∈ bs, b < 256) :
    hexDecode (hexEncode bs) = some bs := by
  induction bs with
  | nil => rfl
  | cons b rest ih =>
    have hb : b < 256 := h b (List.mem_cons_self b rest)
    have hrest := ih fun x hx => h x (List.mem_cons_of_mem b hx)
    have h₁ : hexVal (hexDigit (b / 16 % 16)) = some (b / 16 % 16) :=
      hexVal_hexDigit _ (Nat.mod_lt _ (by omega))
    have h₂ : hexVal (hexDigit (b % 16)) = some (b % 16) :=
      hexVal_hexDigit _ (Nat.mod_lt _ (by omega))
    have hsplit : b / 16 % 16 = b / 16 := Nat.mod_eq_of_lt (by omega)
    have hval : 16 * (b / 16) + b % 16 = b := by omega
    have hdec : hexDecode (hexEncode rest) = hexDecodeList (hexEncode rest).data := rfl
    calc hexDecode (hexEncode (b :: rest))
        = hexDecodeList ((hexEncode (b :: rest)).data) := rfl
      _ = some (b :: rest) := by
          rw [hexEncode_cons]
          have h₁' : hexVal (hexDigit (b / 16)) = some (b / 16) := by
            rw [← hsplit]; exact h₁
          simp only [hexDecodeList, hsplit, h₁', h₂, hdec ▸ hrest, hval]

theorem sha256_bytes_lt (msg : List Nat) : ∀ b ∈ sha256 msg, b < 256 := by
  intro b hb
  simp only [sha256, List.mem_flatten, List.mem_map] at hb
  obtain ⟨l, ⟨wd, _, hw⟩, hbl⟩ := hb
  subst hw
  simp only [wordBytes, List.mem_cons, List.not_mem_nil, or_false] at hbl
  rcases hbl with h | h | h | h <;> subst h <;> exact Nat.mod_lt _ (by omega)

theorem mineAux_sound (ts : Int) (prev : String) (d : List Nat) :
    ∀ fuel start n s, mineAux ts prev d fuel start = some (n, s) →
      s = hexEncode (calculate_hash ts prev d n) ∧
      difficultyOk ts prev d n = true ∧ start ≤ n ∧
      ∀ m, start ≤ m → m < n → difficultyOk ts prev d m = false := by
  intro fuel
  induction fuel with
  | zero => intro start n s heq; exact absurd heq (by simp [mineAux])
  | succ f ih =>
    intro start n s heq
    by_cases hok : difficultyOk ts prev d start = true
    · simp only [mineAux, hok, if_true, Option.some.injEq, Prod.mk.injEq] at heq
      obtain ⟨hn, hs⟩ := heq
      subst hn
      exact ⟨hs.symm, hok, Nat.le_refl _, fun m h₁ h₂ => absurd (Nat.lt_of_le_of_lt h₁ h₂) (Nat.lt_irrefl _)⟩
    · have hok' : difficultyOk ts prev d start = false := by
        cases hv : difficultyOk ts prev d start
        · rfl
        · exact absurd hv hok
      simp only [mineAux, hok', Bool.false_eq_true, if_false] at heq
      obtain ⟨hs, hok₂, hle, hmin⟩ := ih (start + 1) n s heq
      refine ⟨hs, hok₂, by omega, fun m h₁ h₂ => ?_⟩
      by_cases hm : m = start
      · subst hm; exact hok'
      · exact hmin m (by omega) h₂

theorem mineAux_isSome (ts : Int) (prev : String) (d : List Nat) :
    ∀ fuel start, (∃ n, start ≤ n ∧ n < start + fuel ∧ difficultyOk ts prev d n = true) →
      (mineAux ts prev d fuel start).isSome = true := by
  intro fuel
  induction fuel with
  | zero => intro start ⟨n, h₁, h₂, _⟩; omega
  | succ f ih =>
    intro start ⟨n, h₁, h₂, hok⟩
    by_cases hs : difficultyOk ts prev d start = true
    · simp [mineAux, hs]
    · have hs' : difficultyOk ts prev d start = false := by
        cases hv : difficultyOk ts prev d start
        · rfl
        · exact absurd hv hs
      have hne : n ≠ start := fun he => by rw [he] at hok; exact hs hok
      simp only [mineAux, hs', Bool.false_eq_true, if_false]
      exact ih (start + 1) ⟨n, by omega, by omega, hok⟩

theorem try_add_block_getLast (blocks : List Block) (b latest : Block)
    (h : blocks.getLast? = some latest) :
    try_add_block blocks b =
      (is_block_valid b latest).map fun ok => if ok then blocks ++ [b] else blocks := by
  cases hv : is_block_valid b latest with
  | none => simp [try_add_block, h, hv]
  | some ok => cases ok <;> simp [try_add_block, h, hv]

/-! ## Claim theorems -/

/-- C1: when both chains pass `is_chain_valid`, `choose_chain` returns the
longer one, with an exact length tie resolving to the local chain; when
exactly one chain is valid it returns that chain; when neither is valid it
returns no chain at all — the `none` result models the fatal
`panic!("local and remote chains are both invalid")`. -/
theorem choose_chain_follows_table (lc rc : List Block) (lv rv : Bool)
    (hl : is_chain_valid lc = some lv) (hr : is_chain_valid rc = some rv) :
    choose_chain lc rc =
      if lv then
        if rv then some (if lc.length ≥ rc.length then lc else rc) else some lc
      else if rv then some rc else none := by
  unfold choose_chain
  rw [hl, hr]
  cases lv <;> cases rv <;> simp

/-- Witness for C1: two empty chains are trivially valid, and the exact tie
resolves to the local chain. -/
theorem choose_chain_follows_table_witness :
    is_chain_valid ([] : List Block) = some true ∧
    choose_chain ([] : List Block) [] = some [] := by
  refine ⟨rfl, ?_⟩
  have h := choose_chain_follows_table [] [] true true rfl rfl
  simpa using h

/-- C5: `hash_to_binary_representation` concatenates each byte's minimal,
unpadded base-2 digit string (compared here against the standard library's
`Nat.toDigits 2`); a byte of value 2 contributes `"10"` and a zero byte
contributes `"0"`. -/
theorem hash_to_binary_representation_unpadded :
    (∀ bs : List Nat, hash_to_binary_representation bs =
      String.join (bs.map fun b => String.mk (Nat.toDigits 2 b))) ∧
    natToBin 2 = "10" ∧ natToBin 0 = "0" := by
  refine ⟨fun bs => ?_, by decide, by decide⟩
  unfold hash_to_binary_representation String.join
  rw [List.foldl_map]
  simp only [natToBin_eq_toDigits]

/-- C6 (amended): a candidate whose `hash` is not well-formed hex is not
rejected by `is_block_valid`: when its `previous_hash` matches the
predecessor the decode failure panics (the `none` result), and only when the
linkage already mismatches is the block rejected, before decoding. -/
theorem is_block_valid_malformed_hex (b p : Block) (h : hexDecode b.hash = none) :
    is_block_valid b p = if b.previous_hash = p.hash then none else some false := by
  by_cases hlink : b.previous_hash = p.hash
  · simp [is_block_valid, hlink, h]
  · simp [is_block_valid, hlink]

/-- Witness for C6 (amended): `sampleMalformed` has a non-hex `hash` and
links to `sampleParent`, so validation panics. -/
theorem is_block_valid_malformed_hex_witness :
    hexDecode sampleMalformed.hash = none ∧
    is_block_valid sampleMalformed sampleParent =
      if sampleMalformed.previous_hash = sampleParent.hash then none else some false :=
  ⟨by decide, is_block_valid_malformed_hex sampleMalformed sampleParent (by decide)⟩

/-- Counterexample to C6 as stated: a candidate with a malformed hex `hash`
whose `previous_hash` matches the predecessor makes `is_block_valid` (and
hence `try_add_block`) panic — the claimed conversion of the decode failure
into a validation rejection does not happen. -/
theorem is_block_valid_malformed_hex_counterexample :
    is_block_valid sampleMalformed sampleParent = none ∧
    try_add_block [sampleParent] sampleMalformed = none ∧
    is_block_valid sampleMalformed sampleParent ≠ some false := by decide

/-- C7: with a non-empty ledger, `try_add_block` is atomic — when
`is_block_valid` fails the sequence is exactly unchanged, when it succeeds
the new sequence is the old one with the candidate appended (every earlier
block unchanged), and a panic escaping validation propagates. -/
theorem try_add_block_atomic (blocks : List Block) (b latest : Block)
    (h : blocks.getLast? = some latest) :
    try_add_block blocks b =
      (is_block_valid b latest).map fun ok => if ok then blocks ++ [b] else blocks :=
  try_add_block_getLast blocks b latest h

/-- Witness for C7: appending an unlinked candidate to the one-block ledger
`[sampleParent]` leaves the ledger exactly unchanged. -/
theorem try_add_block_atomic_witness :
    ([sampleParent].getLast? = some sampleParent) ∧
    try_add_block [sampleParent] sampleUnlinked = some [sampleParent] :=
  ⟨rfl, (try_add_block_atomic [sampleParent] sampleUnlinked sampleParent rfl).trans (by decide)⟩

/-- C8 (amended): `choose_chain` is deterministic on identical inputs, and
`choose_chain A A = A` for every chain `A` that passes `is_chain_valid`;
for an invalid `A` both candidates are invalid and the call panics instead
of returning `A`. -/
theorem choose_chain_deterministic_self (A B : List Block)
    (h : is_chain_valid A = some true) :
    choose_chain A B = choose_chain A B ∧ choose_chain A A = some A := by
  refine ⟨rfl, ?_⟩
  unfold choose_chain
  rw [h]
  simp

/-- Witness for C8 (amended): the empty chain is trivially valid and chooses
itself. -/
theorem choose_chain_deterministic_self_witness :
    choose_chain ([] : List Block) [] = choose_chain ([] : List Block) [] ∧
    choose_chain ([] : List Block) [] = some [] :=
  choose_chain_deterministic_self [] [] rfl

/-- Counterexample to C8 as stated: for the invalid two-block chain
`[sampleParent, sampleUnlinked]` (broken linkage), `choose_chain A A`
panics (`none`) rather than returning `A`. -/
theorem choose_chain_self_counterexample :
    choose_chain [sampleParent, sampleUnlinked] [sampleParent, sampleUnlinked] = none ∧
    choose_chain [sampleParent, sampleUnlinked] [sampleParent, sampleUnlinked] ≠
      some [sampleParent, sampleUnlinked] := by decide

/-- C9 (amended): `App::genesis` unconditionally appends the fixed genesis
literal (previous hash `"genesis"`, empty payload, nonce 2836, the stored
constant hash) at the startup timestamp, performing no recomputation and no
comparison; the stored hash does not equal a fresh recomputation over the
block's own fields (exhibited at timestamp 0). -/
theorem genesis_pushes_literal_unchecked :
    (∀ (now : Int) (blocks : List Block), genesis now blocks =
      blocks ++ [⟨GENESIS_HASH, "genesis", now, [], 2836⟩]) ∧
    (genesis_block 0).hash ≠ hexEncode (calculate_hash 0 "genesis" [] 2836) :=
  ⟨fun _ _ => rfl, by decide⟩

/-- Counterexample to C9 as stated: at startup timestamp 0 the stored
genesis hash differs from the fresh recomputation of the digest over the
genesis block's own fields, and no comparison is performed at
initialization that would raise the mismatch. -/
theorem genesis_recompute_counterexample :
    (genesis_block 0).hash ≠
      hexEncode (calculate_hash (genesis_block 0).timestamp
        (genesis_block 0).previous_hash (genesis_block 0).data
        (genesis_block 0).nonce) ∧
    genesis 0 [] = [genesis_block 0] := by
  exact ⟨by decide, rfl⟩

/-- C10: `try_add_block` on an empty ledger panics taking the last block
(the `none` result); on any non-empty ledger the last-block access succeeds,
so execution always proceeds past that panic branch into validation. -/
theorem try_add_block_empty_panics :
    (∀ b, try_add_block [] b = none) ∧
    (∀ (blocks : List Block) (b : Block), blocks ≠ [] →
      ∃ latest, blocks.getLast? = some latest ∧
        try_add_block blocks b =
          (is_block_valid b latest).map fun ok => if ok then blocks ++ [b] else blocks) := by
  refine ⟨fun b => rfl, fun blocks b hne => ?_⟩
  cases hlast : blocks.getLast? with
  | none => exact absurd (List.getLast?_eq_none_iff.mp hlast) hne
  | some latest => exact ⟨latest, rfl, try_add_block_getLast blocks b latest hlast⟩

/-- Witness for C10: the empty ledger panics on any candidate, and the
one-block ledger `[sampleParent]` reaches validation. -/
theorem try_add_block_empty_panics_witness :
    try_add_block [] sampleUnlinked = none ∧
    ∃ latest, [sampleParent].getLast? = some latest ∧
      try_add_block [sampleParent] sampleUnlinked =
        (is_block_valid sampleUnlinked latest).map
          fun ok => if ok then [sampleParent] ++ [sampleUnlinked] else [sampleParent] :=
  ⟨try_add_block_empty_panics.1 sampleUnlinked,
   try_add_block_empty_panics.2 [sampleParent] sampleUnlinked (by decide)⟩

/-- C2: whenever some nonce within the modelled search bound satisfies the
difficulty predicate, `mine_block` returns the least such nonce together
with the hex encoding of its digest, and the returned digest's binary string
starts with the difficulty characters. -/
theorem mine_block_least_nonce (fuel : Nat) (ts : Int) (prev : String) (d : List Nat)
    (h : ∃ n, n < fuel ∧ difficultyOk ts prev d n = true) :
    ∃ n, mine_block fuel ts prev d = some (n, hexEncode (calculate_hash ts prev d n)) ∧
      strStartsWith (hash_to_binary_representation (calculate_hash ts prev d n))
        DIFFICULTY_TARGET = true ∧
      ∀ m, m < n → strStartsWith (hash_to_binary_representation (calculate_hash ts prev d m))
        DIFFICULTY_TARGET = false := by
  obtain ⟨n₀, hlt, hok⟩ := h
  have hsome : (mineAux ts prev d fuel 0).isSome = true :=
    mineAux_isSome ts prev d fuel 0 ⟨n₀, Nat.zero_le _, by omega, hok⟩
  cases hm : mineAux ts prev d fuel 0 with
  | none => rw [hm] at hsome; exact absurd hsome (by simp)
  | some p =>
    obtain ⟨n, s⟩ := p
    obtain ⟨hs, hn, _, hmin⟩ := mineAux_sound ts prev d fuel 0 n s hm
    refine ⟨n, ?_, hn, fun m hmn => hmin m (Nat.zero_le _) hmn⟩
    rw [mine_block, hm, hs]

/-- Witness for C2: at timestamp 118073 with predecessor hash `"g"` and an
empty payload, nonce 0 already meets the difficulty, so one unit of fuel
suffices. -/
theorem mine_block_least_nonce_witness :
    (0 < 1 ∧ difficultyOk 118073 "g" [] 0 = true) ∧
    ∃ n, mine_block 1 118073 "g" [] = some (n, hexEncode (calculate_hash 118073 "g" [] n)) ∧
      strStartsWith (hash_to_binary_representation (calculate_hash 118073 "g" [] n))
        DIFFICULTY_TARGET = true ∧
      ∀ m, m < n → strStartsWith (hash_to_binary_representation (calculate_hash 118073 "g" [] m))
        DIFFICULTY_TARGET = false :=
  ⟨⟨by decide, by decide⟩,
   mine_block_least_nonce 1 118073 "g" [] ⟨0, by decide, by decide⟩⟩

/-- C4: a block constructed by `Block.new` from a predecessor's hash passes
`is_block_valid` against that predecessor, and in particular the validator's
recomputed digest hex-encodes to exactly the stored hash. -/
theorem block_new_valid (fuel : Nat) (now : Int) (p : Block) (d : List Nat) (b : Block)
    (h : Block.new fuel now p.hash d = some b) :
    is_block_valid b p = some true ∧
    hexEncode (calculate_hash b.timestamp b.previous_hash b.data b.nonce) = b.hash := by
  unfold Block.new mine_block at h
  cases hm : mineAux now p.hash d fuel 0 with
  | none => rw [hm] at h; exact absurd h (by simp)
  | some pr =>
    obtain ⟨n, s⟩ := pr
    rw [hm] at h
    simp only [Option.map_some', Option.some.injEq] at h
    obtain ⟨hs, hok, -, -⟩ := mineAux_sound now p.hash d fuel 0 n s hm
    subst h
    have hraw : hexDecode s = some (calculate_hash now p.hash d n) := by
      rw [hs]
      exact hexDecode_hexEncode _ (sha256_bytes_lt _)
    have hseal : hexEncode (calculate_hash now p.hash d n) = s := hs.symm
    have hbin : strStartsWith
        (hash_to_binary_representation (calculate_hash now p.hash d n))
        DIFFICULTY_TARGET = true := hok
    refine ⟨?_, hseal⟩
    simp [is_block_valid, hraw, hbin, hseal]

/-- Witness for C4: `sampleMined` is the block `Block.new` produces from
`sampleParent.hash` at timestamp 118073 with one unit of fuel, and it
validates against `sampleParent`. -/
theorem block_new_valid_witness :
    Block.new 1 118073 sampleParent.hash [] = some sampleMined ∧
    is_block_valid sampleMined sampleParent = some true :=
  ⟨by decide,
   (block_new_valid 1 118073 sampleParent [] sampleMined (by decide)).1⟩

/-- C3: the canonical encoding is the compact object serialization with the
keys in the fixed order `previous_hash, data, timestamp, nonce`, the payload
in its JSON-array textual form; being a pure function of the four field
values, identical values always yield byte-identical output. -/
theorem block_json_canonical (prev : String) (d : List Nat) (ts : Int) (n : Nat) :
    (block_json prev d ts n).data =
      "\x7b\"previous_hash\":".data ++ (jsonQuote prev).data ++
      ",\"data\":[".data ++ (commaJoin (d.map natToDec)).data ++
      "],\"timestamp\":".data ++ (intToDec ts).data ++
      ",\"nonce\":".data ++ (natToDec n).data ++ "\x7d".data := by
  simp only [block_json, serializeObj, serializeJval, List.map, commaJoin,
    String.data_append, List.append_assoc]
  rfl

end Mchain
